import Mathlib

/-!
Shallow embedding of `tools/classify_oidv2.py` (Open Images classifier
inference utility) and proofs of its specified properties.

Text is modelled as `List Char` (a Python `str` is a sequence of
characters), files as lists of lines, scores as `ℚ` (the ordering and
counting behaviour of the ranking pipeline is independent of the float
representation), and fallible Python operations (`IndexError`,
`KeyError`, uncaught exceptions) as `Option`.
-/

namespace ClassifyOidv2

/-- Convert a Lean string literal to the `List Char` text model. -/
def strL (s : String) : List Char := s.toList

/-! ### Label map loading (`LoadLabelMap`, lines 125-143) -/

/-- The characters Python's no-argument `str.rstrip()` removes. -/
def whitespaceChars : List Char := [' ', '\t', '\n', '\r', '\x0b', '\x0c']

/-- Python `line.rstrip()`: drop trailing whitespace characters. -/
def pyRstrip (s : List Char) : List Char :=
  (s.reverse.dropWhile (fun c => c ∈ whitespaceChars)).reverse

/-- The strip set of `word.strip(' "\n')` in `LoadLabelMap` (line 140). -/
def stripChars : List Char := [' ', '"', '\n']

/-- Python `s.strip(cs)`: drop the characters of `cs` from both ends. -/
def pyStrip (cs : List Char) (s : List Char) : List Char :=
  ((s.dropWhile (fun c => c ∈ cs)).reverse.dropWhile (fun c => c ∈ cs)).reverse

/-- Python `line.split(',', 1)`: split at the first comma only.
`none` when the line has no comma (the Python result is then the
one-element list `[line]` and the later `words[1]` access fails). -/
def splitFirstComma : List Char → Option (List Char × List Char)
  | [] => none
  | c :: rest =>
    if c = ',' then some ([], rest)
    else
      match splitFirstComma rest with
      | none => none
      | some (a, b) => some (c :: a, b)

/-- One iteration of the dictionary loop (lines 140-141):
`words = [word.strip(' "\n') for word in line.split(',', 1)]` followed by
`label_dict[words[0]] = words[1]`.  `none` models the `IndexError` raised
by `words[1]` on a comma-free line. -/
def parseDictLine (line : List Char) : Option (List Char × List Char) :=
  match splitFirstComma line with
  | none => none
  | some (a, b) => some (pyStrip stripChars a, pyStrip stripChars b)

/-- The dictionary-building loop of `LoadLabelMap` (lines 138-141): the
parsed `(mid, name)` pairs in file order; `none` as soon as a line fails
to parse.  The Python `dict` is modelled by this insertion sequence
together with `dictLookup` below. -/
def loadLabelDict : List (List Char) → Option (List (List Char × List Char))
  | [] => some []
  | line :: rest =>
    match parseDictLine line with
    | none => none
    | some p =>
      match loadLabelDict rest with
      | none => none
      | some d => some (p :: d)

/-- Python `dict` lookup over the insertion sequence: the most recent
assignment to a key wins (`label_dict[words[0]] = words[1]` overwrites).
`none` models a `KeyError`. -/
def dictLookup (d : List (List Char × List Char)) (k : List Char) :
    Option (List Char) :=
  (d.reverse.find? (fun p => decide (p.1 = k))).map (fun p => p.2)

/-- `LoadLabelMap` (lines 125-143): the labelmap is the lines of the
labelmap file with `rstrip()` applied, in file order; the label
dictionary is built from the dict file.  `none` models the uncaught
exception raised on a malformed dictionary line. -/
def LoadLabelMap (labelLines dictLines : List (List Char)) :
    Option (List (List Char) × List (List Char × List Char)) :=
  match loadLabelDict dictLines with
  | none => none
  | some d => some (labelLines.map pyRstrip, d)

/-! ### Ranking (`main`, lines 165-170) -/

/-- `predictions_eval[i]`: the score at class index `i`. -/
def score (s : List ℚ) (i : ℕ) : ℚ := s.getD i 0

/-- The total order realising `predictions_eval.argsort()[::-1]`:
descending score, ties broken by ascending index (numpy's tie order is
unspecified; this is one deterministic total order over indices). -/
def rankLE (s : List ℚ) (i j : ℕ) : Prop :=
  score s j < score s i ∨ (score s i = score s j ∧ i ≤ j)

instance (s : List ℚ) : DecidableRel (rankLE s) := fun i j => by
  unfold rankLE; exact inferInstance

instance (s : List ℚ) : IsTotal ℕ (rankLE s) := by
  constructor
  intro i j
  rcases lt_trichotomy (score s i) (score s j) with h | h | h
  · exact Or.inr (Or.inl h)
  · rcases Nat.le_total i j with hij | hij
    · exact Or.inl (Or.inr ⟨h, hij⟩)
    · exact Or.inr (Or.inr ⟨h.symm, hij⟩)
  · exact Or.inl (Or.inl h)

instance (s : List ℚ) : IsTrans ℕ (rankLE s) := by
  constructor
  intro i j k hij hjk
  rcases hij with h1 | ⟨h1, h1n⟩ <;> rcases hjk with h2 | ⟨h2, h2n⟩
  · exact Or.inl (h2.trans h1)
  · exact Or.inl (h2 ▸ h1)
  · exact Or.inl (h1 ▸ h2)
  · exact Or.inr ⟨h1.trans h2, h1n.trans h2n⟩

/-- `top_k = predictions_eval.argsort()[::-1]` (line 165): all class
indices sorted by descending score. -/
def argsortDesc (s : List ℚ) : List ℕ :=
  List.insertionSort (rankLE s) (List.range s.length)

/-- Lines 166-167: `if FLAGS.top_k > 0: top_k = top_k[:FLAGS.top_k]`.
The flag is an integer; no truncation when it is zero or negative. -/
def truncate (k : ℤ) (l : List ℕ) : List ℕ :=
  if 0 < k then l.take k.toNat else l

/-- Lines 168-170: keep indices whose score is `>=` the threshold, when
a threshold was given. -/
def thresholdFilter (s : List ℚ) : Option ℚ → List ℕ → List ℕ
  | none, l => l
  | some t, l => l.filter (fun i => decide (t ≤ score s i))

/-- The ranked index list of one image: sort, then truncate, then
filter (lines 165-170, in source order). -/
def rankedIndices (s : List ℚ) (k : ℤ) (t : Option ℚ) : List ℕ :=
  thresholdFilter s t (truncate k (argsortDesc s))

/-! ### Formatting and printing (`main`, lines 171-177) -/

/-- Decimal digit rendering with explicit fuel (the fuel strictly
dominates the value, so it never runs out when called via `natDigits`). -/
def natDigitsAux : ℕ → ℕ → List Char
  | 0, _ => []
  | fuel + 1, n =>
    if n < 10 then [Nat.digitChar n]
    else natDigitsAux fuel (n / 10) ++ [Nat.digitChar (n % 10)]

/-- Decimal digits of a natural number, most significant first. -/
def natDigits (n : ℕ) : List Char := natDigitsAux (n + 1) n

/-- Python `'{:04d}'.format(n)`: the decimal digits left-padded with
zeros to at least width 4. -/
def pad4 (n : ℕ) : List Char :=
  List.replicate (4 - (natDigits n).length) '0' ++ natDigits n

/-- Two-digit rendering of a value `< 100` (the fractional part). -/
def twoFrac (m : ℕ) : List Char := [Nat.digitChar (m / 10), Nat.digitChar (m % 10)]

/-- The number of hundredths displayed for a score `q`:
`⌊q * 100 + 1/2⌋`, computed on the numerator and denominator so that it
evaluates by kernel reduction.  `q * 100 + 1/2 = (200*num + den) / (2*den)`,
and `Int.fdiv` is floor division. -/
def round2 (q : ℚ) : ℤ := Int.fdiv (200 * q.num + q.den) (2 * q.den)

/-- Python `'{:.2f}'.format(q)`: the score rounded to two decimal
places (to the nearest hundredth; the claims only exercise exact
two-decimal values, where no rounding occurs). -/
def format2 (q : ℚ) : List Char :=
  if round2 q < 0 then
    '-' :: (natDigits ((round2 q).natAbs / 100) ++
      '.' :: twoFrac ((round2 q).natAbs % 100))
  else
    natDigits ((round2 q).toNat / 100) ++ '.' :: twoFrac ((round2 q).toNat % 100)

/-- Line 176-177: `'{:04d}: {} - {} (score = {:.2f})'.format(idx, mid,
display_name, score)`. -/
def formatResultLine (idx : ℕ) (mid nm : List Char) (sc : ℚ) : List Char :=
  pad4 idx ++ strL ": " ++ mid ++ strL " - " ++ nm ++
    strL " (score = " ++ format2 sc ++ strL ")"

/-- Line 171: `print('Image: "%s"\n' % image_filename)`, the header
printed before an image's result lines. -/
def headerLine (fn : List Char) : List Char :=
  strL "Image: \"" ++ fn ++ strL "\"\n"

/-- Lines 173-175: `mid = labelmap[idx]`, `display_name =
label_dict[mid]`, `score = predictions_eval[idx]`.  `none` models the
uncaught `IndexError`/`KeyError` on a mismatched index space. -/
def lookupEntry (lm : List (List Char)) (d : List (List Char × List Char))
    (s : List ℚ) (i : ℕ) : Option (ℕ × List Char × List Char × ℚ) :=
  match lm.get? i with
  | none => none
  | some mid =>
    match dictLookup d mid with
    | none => none
    | some nm => some (i, mid, nm, score s i)

/-- The printing loop over the ranked indices (lines 172-177): one
formatted line per ranked entry, aborting on the first failed lookup. -/
def formatAll (lm : List (List Char)) (d : List (List Char × List Char))
    (s : List ℚ) : List ℕ → Option (List (List Char))
  | [] => some []
  | i :: rest =>
    match lookupEntry lm d s i with
    | none => none
    | some e =>
      match formatAll lm d s rest with
      | none => none
      | some ls => some (formatResultLine e.1 e.2.1 e.2.2.1 e.2.2.2 :: ls)

/-- The complete printed output for one image (lines 171-177): the
header line followed by one result line per ranked entry. -/
def imageOutput (lm : List (List Char)) (d : List (List Char × List Char))
    (s : List ℚ) (k : ℤ) (t : Option ℚ) (fn : List Char) :
    Option (List (List Char)) :=
  match formatAll lm d s (rankedIndices s k t) with
  | none => none
  | some ls => some (headerLine fn :: ls)

/-! ### Helper lemmas about the ranking pipeline -/

theorem argsortDesc_length (s : List ℚ) : (argsortDesc s).length = s.length := by
  unfold argsortDesc
  rw [(List.perm_insertionSort (rankLE s) (List.range s.length)).length_eq,
    List.length_range]

theorem argsortDesc_sorted (s : List ℚ) :
    (argsortDesc s).Pairwise (rankLE s) :=
  List.sorted_insertionSort (rankLE s) (List.range s.length)

theorem rankLE_score {s : List ℚ} {i j : ℕ} (h : rankLE s i j) :
    score s j ≤ score s i := by
  rcases h with h | ⟨h, _⟩
  · exact le_of_lt h
  · exact le_of_eq h.symm

theorem truncate_pos {k : ℤ} (hk : 0 < k) (l : List ℕ) :
    truncate k l = l.take k.toNat := by
  unfold truncate
  rw [if_pos hk]

theorem truncate_nonpos {k : ℤ} (hk : k ≤ 0) (l : List ℕ) :
    truncate k l = l := by
  unfold truncate
  rw [if_neg (by omega)]

theorem rankedIndices_none (s : List ℚ) (k : ℤ) :
    rankedIndices s k none = truncate k (argsortDesc s) := rfl

theorem rankedIndices_some (s : List ℚ) (k : ℤ) (t : ℚ) :
    rankedIndices s k (some t) =
      (truncate k (argsortDesc s)).filter (fun i => decide (t ≤ score s i)) := rfl

/-! ### Claims about ranking, truncation and filtering -/

/-- C1: for every score vector of length `N` and every `top_k = k > 0`,
with no threshold, the ranked result has exactly `min k N` entries, and
the entries are ordered by the total order `rankLE s` (descending score,
ties broken by the deterministic order of ascending index). -/
theorem c1_topk_count_and_order (s : List ℚ) (k : ℤ) (hk : 0 < k) :
    (rankedIndices s k none).length = min k.toNat s.length ∧
    (rankedIndices s k none).Pairwise (rankLE s) ∧
    (rankedIndices s k none).Pairwise (fun i j => score s j ≤ score s i) := by
  rw [rankedIndices_none, truncate_pos hk]
  refine ⟨?_, ?_, ?_⟩
  · rw [List.length_take, argsortDesc_length]
  · exact List.Pairwise.sublist (List.take_sublist _ _) (argsortDesc_sorted s)
  · exact (List.Pairwise.sublist (List.take_sublist _ _)
      (argsortDesc_sorted s)).imp rankLE_score

theorem c1_topk_count_and_order_witness :
    (0 : ℤ) < 2 ∧
    ((rankedIndices [mkRat 1 2, mkRat 2 3, mkRat 1 3] 2 none).length =
        min (2 : ℤ).toNat ([mkRat 1 2, mkRat 2 3, mkRat 1 3] : List ℚ).length ∧
      (rankedIndices [mkRat 1 2, mkRat 2 3, mkRat 1 3] 2 none).Pairwise
        (rankLE [mkRat 1 2, mkRat 2 3, mkRat 1 3]) ∧
      (rankedIndices [mkRat 1 2, mkRat 2 3, mkRat 1 3] 2 none).Pairwise
        (fun i j => score [mkRat 1 2, mkRat 2 3, mkRat 1 3] j ≤
          score [mkRat 1 2, mkRat 2 3, mkRat 1 3] i)) :=
  ⟨by decide, c1_topk_count_and_order [mkRat 1 2, mkRat 2 3, mkRat 1 3] 2 (by decide)⟩

/-- C2: for every score vector, positive `top_k` and threshold `t`,
every entry of the final ranked result has score `≥ t`; the result is a
sublist of the truncated list (truncation happens before filtering, so
filtering only removes entries), and hence has at most `min k N`
entries. -/
theorem c2_threshold_after_truncation (s : List ℚ) (k : ℤ) (t : ℚ) (hk : 0 < k) :
    (∀ i ∈ rankedIndices s k (some t), t ≤ score s i) ∧
    List.Sublist (rankedIndices s k (some t)) (truncate k (argsortDesc s)) ∧
    (rankedIndices s k (some t)).length ≤ min k.toNat s.length := by
  refine ⟨?_, ?_, ?_⟩
  · intro i hi
    rw [rankedIndices_some] at hi
    exact of_decide_eq_true (List.mem_filter.mp hi).2
  · rw [rankedIndices_some]
    exact List.filter_sublist _
  · rw [rankedIndices_some]
    calc ((truncate k (argsortDesc s)).filter _).length
        ≤ (truncate k (argsortDesc s)).length := (List.filter_sublist _).length_le
      _ = min k.toNat s.length := by
          rw [truncate_pos hk, List.length_take, argsortDesc_length]

theorem c2_threshold_after_truncation_witness :
    (0 : ℤ) < 2 ∧
    ((∀ i ∈ rankedIndices [mkRat 1 2, mkRat 2 3, mkRat 1 3] 2 (some (mkRat 3 5)),
        mkRat 3 5 ≤ score [mkRat 1 2, mkRat 2 3, mkRat 1 3] i) ∧
      List.Sublist (rankedIndices [mkRat 1 2, mkRat 2 3, mkRat 1 3] 2 (some (mkRat 3 5)))
        (truncate 2 (argsortDesc [mkRat 1 2, mkRat 2 3, mkRat 1 3])) ∧
      (rankedIndices [mkRat 1 2, mkRat 2 3, mkRat 1 3] 2 (some (mkRat 3 5))).length ≤
        min (2 : ℤ).toNat ([mkRat 1 2, mkRat 2 3, mkRat 1 3] : List ℚ).length) :=
  ⟨by decide,
    c2_threshold_after_truncation [mkRat 1 2, mkRat 2 3, mkRat 1 3] 2 (mkRat 3 5)
      (by decide)⟩

/-- C5: for every score vector and `top_k` zero or negative (no
threshold), no truncation occurs: the ranked result is the full
descending argsort, with all `N` entries, in descending score order. -/
theorem c5_nonpositive_topk_unlimited (s : List ℚ) (k : ℤ) (hk : k ≤ 0) :
    rankedIndices s k none = argsortDesc s ∧
    (rankedIndices s k none).length = s.length ∧
    (rankedIndices s k none).Pairwise (fun i j => score s j ≤ score s i) := by
  rw [rankedIndices_none, truncate_nonpos hk]
  exact ⟨rfl, argsortDesc_length s, (argsortDesc_sorted s).imp rankLE_score⟩

theorem c5_nonpositive_topk_unlimited_witness :
    (0 : ℤ) ≤ 0 ∧
    (rankedIndices [mkRat 1 2, mkRat 2 3, mkRat 1 3] 0 none =
        argsortDesc [mkRat 1 2, mkRat 2 3, mkRat 1 3] ∧
      (rankedIndices [mkRat 1 2, mkRat 2 3, mkRat 1 3] 0 none).length =
        ([mkRat 1 2, mkRat 2 3, mkRat 1 3] : List ℚ).length ∧
      (rankedIndices [mkRat 1 2, mkRat 2 3, mkRat 1 3] 0 none).Pairwise
        (fun i j => score [mkRat 1 2, mkRat 2 3, mkRat 1 3] j ≤
          score [mkRat 1 2, mkRat 2 3, mkRat 1 3] i)) :=
  ⟨by decide, c5_nonpositive_topk_unlimited [mkRat 1 2, mkRat 2 3, mkRat 1 3] 0
    (by decide)⟩

/-! ### Claims about label-map loading -/

/-- C3: the loaded label map has one entry per line of the labelmap
file, in file order, each being the line with trailing whitespace
removed, so a mid's class index is its line position. -/
theorem c3_labelmap_preserves_order (labelLines dictLines : List (List Char))
    (lm : List (List Char)) (d : List (List Char × List Char))
    (h : LoadLabelMap labelLines dictLines = some (lm, d)) :
    lm.length = labelLines.length ∧
    lm = labelLines.map pyRstrip ∧
    ∀ j : ℕ, lm[j]? = (labelLines[j]?).map pyRstrip := by
  unfold LoadLabelMap at h
  cases hd : loadLabelDict dictLines with
  | none => rw [hd] at h; exact absurd h (by simp)
  | some d0 =>
    rw [hd] at h
    injection h with h
    rw [Prod.mk.injEq] at h
    obtain ⟨h1, -⟩ := h
    subst h1
    exact ⟨List.length_map _ _, rfl, fun j => List.getElem?_map pyRstrip labelLines j⟩

theorem c3_labelmap_preserves_order_witness :
    LoadLabelMap [strL "/m/068hy\n", strL "/m/01yrx\n"] [strL "/m/068hy,\"Pet\"\n"] =
      some ([strL "/m/068hy", strL "/m/01yrx"], [(strL "/m/068hy", strL "Pet")]) ∧
    ([strL "/m/068hy", strL "/m/01yrx"] : List (List Char)).length =
      ([strL "/m/068hy\n", strL "/m/01yrx\n"] : List (List Char)).length ∧
    [strL "/m/068hy", strL "/m/01yrx"] =
      [strL "/m/068hy\n", strL "/m/01yrx\n"].map pyRstrip ∧
    ∀ j : ℕ, ([strL "/m/068hy", strL "/m/01yrx"] : List (List Char))[j]? =
      (([strL "/m/068hy\n", strL "/m/01yrx\n"] : List (List Char))[j]?).map pyRstrip :=
  ⟨by decide,
    c3_labelmap_preserves_order [strL "/m/068hy\n", strL "/m/01yrx\n"]
      [strL "/m/068hy,\"Pet\"\n"] [strL "/m/068hy", strL "/m/01yrx"]
      [(strL "/m/068hy", strL "Pet")] (by decide)⟩

/-- Splitting at the first comma of `m ++ ',' :: r` when `m` itself is
comma-free recovers `(m, r)`. -/
theorem splitFirstComma_app (m r : List Char) (hm : ',' ∉ m) :
    splitFirstComma (m ++ ',' :: r) = some (m, r) := by
  induction m with
  | nil => simp [splitFirstComma]
  | cons c t ih =>
    have hc : ¬ c = ',' := fun h => hm (by rw [h]; exact List.mem_cons_self ',' t)
    have ht : ',' ∉ t := fun h => hm (List.mem_cons_of_mem c h)
    rw [List.cons_append]
    unfold splitFirstComma
    rw [if_neg hc, ih ht]

/-- A list on which `dropWhile` is the identity has a head failing the
predicate. -/
theorem dropWhile_fix_head {p : Char → Bool} {l : List Char}
    (h : l.dropWhile p = l) : ∀ c t, l = c :: t → p c = false := by
  intro c t hl
  subst hl
  by_cases hp : p c
  · rw [List.dropWhile_cons_of_pos hp] at h
    have := (List.dropWhile_suffix p (l := t)).length_le
    rw [h] at this
    simp at this
  · exact Bool.of_not_eq_true hp

/-- If stripping is the identity on `l`, neither end of `l` starts with
a strip character. -/
theorem pyStrip_fix {cs l : List Char} (h : pyStrip cs l = l) :
    l.dropWhile (fun c => c ∈ cs) = l ∧
    l.reverse.dropWhile (fun c => c ∈ cs) = l.reverse := by
  unfold pyStrip at h
  have ha : l.dropWhile (fun c => c ∈ cs) <:+ l := List.dropWhile_suffix _
  have hb : (l.dropWhile (fun c => c ∈ cs)).reverse.dropWhile (fun c => c ∈ cs) <:+
      (l.dropWhile (fun c => c ∈ cs)).reverse := List.dropWhile_suffix _
  have hlen : ((l.dropWhile (fun c => c ∈ cs)).reverse.dropWhile
      (fun c => c ∈ cs)).length = l.length := by
    rw [← List.length_reverse (((l.dropWhile (fun c => c ∈ cs)).reverse.dropWhile
      (fun c => c ∈ cs))), h]
  have haeq : l.dropWhile (fun c => c ∈ cs) = l := by
    refine ha.eq_of_length ?_
    have := hb.length_le
    rw [hlen, List.length_reverse] at this
    exact Nat.le_antisymm ha.length_le this
  refine ⟨haeq, ?_⟩
  rw [haeq] at h hb hlen
  exact hb.eq_of_length (by rw [hlen, List.length_reverse])

theorem dropWhile_strip_cons_pos {cs : List Char} {a : Char} (h : a ∈ cs)
    (l : List Char) :
    (a :: l).dropWhile (fun c => c ∈ cs) = l.dropWhile (fun c => c ∈ cs) := by
  simp [List.dropWhile_cons, h]

theorem dropWhile_strip_cons_neg {cs : List Char} {a : Char} (h : a ∉ cs)
    (l : List Char) :
    (a :: l).dropWhile (fun c => c ∈ cs) = a :: l := by
  simp [List.dropWhile_cons, h]

/-- Stripping a double-quoted field recovers the field, provided the
field itself is strip-clean. -/
theorem pyStrip_quoted {nm : List Char} (h : pyStrip stripChars nm = nm) :
    pyStrip stripChars ('"' :: (nm ++ ['"'])) = nm := by
  obtain ⟨h1, h2⟩ := pyStrip_fix h
  have hq : ('"' : Char) ∈ stripChars := by decide
  cases nm with
  | nil => decide
  | cons c t =>
    have hcf : decide (c ∈ stripChars) = false := dropWhile_fix_head h1 c t rfl
    have hcn : c ∉ stripChars := by simpa using hcf
    unfold pyStrip
    rw [dropWhile_strip_cons_pos hq, List.cons_append,
      dropWhile_strip_cons_neg hcn, List.reverse_cons, List.reverse_append,
      List.reverse_singleton, List.singleton_append, List.cons_append,
      dropWhile_strip_cons_pos hq, ← List.reverse_cons, h2, List.reverse_reverse]

/-- C4: a dictionary line of the form `mid,"name"` is split at its
first comma only, both fields are stripped of surrounding whitespace
and double quotes, and the resulting mapping sends `mid` to `name`
(commas inside `name` are retained). -/
theorem c4_dict_line_parsing (mid nm : List Char) (hmid : ',' ∉ mid)
    (hm : pyStrip stripChars mid = mid) (hn : pyStrip stripChars nm = nm) :
    parseDictLine (mid ++ ',' :: '"' :: (nm ++ ['"'])) = some (mid, nm) ∧
    ∀ d, loadLabelDict [mid ++ ',' :: '"' :: (nm ++ ['"'])] = some d →
      dictLookup d mid = some nm := by
  have hp : parseDictLine (mid ++ ',' :: '"' :: (nm ++ ['"'])) = some (mid, nm) := by
    unfold parseDictLine
    rw [splitFirstComma_app mid _ hmid]
    show some (pyStrip stripChars mid,
      pyStrip stripChars ('"' :: (nm ++ ['"']))) = some (mid, nm)
    rw [hm, pyStrip_quoted hn]
  refine ⟨hp, ?_⟩
  intro d hd
  unfold loadLabelDict at hd
  rw [hp] at hd
  simp only [loadLabelDict] at hd
  injection hd with hd
  subst hd
  unfold dictLookup
  simp [List.find?]

theorem c4_dict_line_parsing_witness :
    ',' ∉ strL "/m/068hy" ∧
    pyStrip stripChars (strL "/m/068hy") = strL "/m/068hy" ∧
    pyStrip stripChars (strL "Pet, dog") = strL "Pet, dog" ∧
    (parseDictLine (strL "/m/068hy" ++ ',' :: '"' :: (strL "Pet, dog" ++ ['"'])) =
        some (strL "/m/068hy", strL "Pet, dog") ∧
      ∀ d, loadLabelDict [strL "/m/068hy" ++ ',' :: '"' :: (strL "Pet, dog" ++ ['"'])] =
          some d → dictLookup d (strL "/m/068hy") = some (strL "Pet, dog")) :=
  ⟨by decide, by decide, by decide,
    c4_dict_line_parsing (strL "/m/068hy") (strL "Pet, dog") (by decide) (by decide)
      (by decide)⟩

/-! ### Claims about output formatting -/

theorem natDigitsAux_length_le : ∀ fuel n k : ℕ, n < fuel → n < 10 ^ k → 0 < k →
    (natDigitsAux fuel n).length ≤ k := by
  intro fuel
  induction fuel with
  | zero => intro n k h; omega
  | succ f ih =>
    intro n k hn hnk hk
    unfold natDigitsAux
    by_cases h10 : n < 10
    · rw [if_pos h10]
      simpa using hk
    · rw [if_neg h10, List.length_append, List.length_singleton]
      have hk2 : 2 ≤ k := by
        by_contra hlt
        have hk1 : k = 1 := by omega
        subst hk1
        rw [pow_one] at hnk
        omega
      have hpow : (10 : ℕ) ^ k = 10 ^ (k - 1) * 10 := by
        rw [← pow_succ]
        congr 1
        omega
      have hdiv : n / 10 < 10 ^ (k - 1) := by
        rw [Nat.div_lt_iff_lt_mul (by omega)]
        rw [hpow] at hnk
        exact hnk
      have := ih (n / 10) (k - 1) (by omega) hdiv (by omega)
      omega

theorem natDigits_length_le4 {n : ℕ} (h : n < 10000) : (natDigits n).length ≤ 4 := by
  have hp : (10 : ℕ) ^ 4 = 10000 := by norm_num
  exact natDigitsAux_length_le (n + 1) n 4 (by omega) (by omega) (by omega)

theorem pad4_length {n : ℕ} (h : n < 10000) : (pad4 n).length = 4 := by
  unfold pad4
  rw [List.length_append, List.length_replicate]
  have := natDigits_length_le4 h
  omega

/-- C6: every printed result line is the 4-digit zero-padded class
index, `': '`, the mid, `' - '`, the display name and the score to two
decimals (as in `3272: /m/068hy - Pet (score = 0.96)`), and each image's
output starts with a header line naming the image file. -/
theorem c6_output_format (lm : List (List Char)) (d : List (List Char × List Char))
    (s : List ℚ) (k : ℤ) (t : Option ℚ) (fn : List Char)
    (out : List (List Char)) (h : imageOutput lm d s k t fn = some out) :
    (∃ rest, out = headerLine fn :: rest) ∧
    formatResultLine 3272 (strL "/m/068hy") (strL "Pet") (mkRat 96 100) =
      strL "3272: /m/068hy - Pet (score = 0.96)" ∧
    ∀ n : ℕ, n < 10000 → (pad4 n).length = 4 := by
  refine ⟨?_, by decide, fun n hn => pad4_length hn⟩
  unfold imageOutput at h
  cases hf : formatAll lm d s (rankedIndices s k t) with
  | none => rw [hf] at h; exact absurd h (by simp)
  | some ls =>
    rw [hf] at h
    injection h with h
    exact ⟨ls, h.symm⟩

theorem c6_output_format_witness :
    imageOutput [strL "/m/068hy"] [(strL "/m/068hy", strL "Pet")] [mkRat 96 100]
        1 none (strL "cat.jpg") =
      some [headerLine (strL "cat.jpg"), strL "0000: /m/068hy - Pet (score = 0.96)"] ∧
    ((∃ rest, [headerLine (strL "cat.jpg"),
        strL "0000: /m/068hy - Pet (score = 0.96)"] =
        headerLine (strL "cat.jpg") :: rest) ∧
      formatResultLine 3272 (strL "/m/068hy") (strL "Pet") (mkRat 96 100) =
        strL "3272: /m/068hy - Pet (score = 0.96)" ∧
      ∀ n : ℕ, n < 10000 → (pad4 n).length = 4) :=
  ⟨by decide,
    c6_output_format [strL "/m/068hy"] [(strL "/m/068hy", strL "Pet")]
      [mkRat 96 100] 1 none (strL "cat.jpg")
      [headerLine (strL "cat.jpg"), strL "0000: /m/068hy - Pet (score = 0.96)"]
      (by decide)⟩

/-- C7: the end-to-end scenario: labelmap `["/m/068hy", "/m/01yrx"]`,
dictionary sending `/m/068hy` to `Pet` and `/m/01yrx` to `Cat`, scores
`[0.96, 0.95]`, `top_k = 1`, no threshold: the output is the header
followed by exactly one line, `0000: /m/068hy - Pet (score = 0.96)`. -/
theorem c7_end_to_end :
    LoadLabelMap [strL "/m/068hy", strL "/m/01yrx"]
        [strL "/m/068hy,\"Pet\"", strL "/m/01yrx,\"Cat\""] =
      some ([strL "/m/068hy", strL "/m/01yrx"],
        [(strL "/m/068hy", strL "Pet"), (strL "/m/01yrx", strL "Cat")]) ∧
    imageOutput [strL "/m/068hy", strL "/m/01yrx"]
        [(strL "/m/068hy", strL "Pet"), (strL "/m/01yrx", strL "Cat")]
        [mkRat 96 100, mkRat 95 100] 1 none (strL "cat.jpg") =
      some [headerLine (strL "cat.jpg"),
        strL "0000: /m/068hy - Pet (score = 0.96)"] :=
  ⟨by decide, by decide⟩

/-! ### Claims about error behaviour -/

theorem formatAll_none {lm : List (List Char)} {d : List (List Char × List Char)}
    {s : List ℚ} {l : List ℕ} {i : ℕ} (hi : i ∈ l)
    (h : lookupEntry lm d s i = none) : formatAll lm d s l = none := by
  induction l with
  | nil => cases hi
  | cons a rest ih =>
    unfold formatAll
    rcases List.mem_cons.mp hi with rfl | hmem
    · rw [h]
    · cases ha : lookupEntry lm d s a with
      | none => rfl
      | some e => rw [ih hmem]

/-- C8: if a ranked class index is outside the label map, or its mid is
missing from the label dictionary, result printing fails (no output is
produced): the lookups are not guarded. -/
theorem c8_lookup_failure_fatal (lm : List (List Char))
    (d : List (List Char × List Char)) (s : List ℚ) (k : ℤ) (t : Option ℚ)
    (fn : List Char) (i : ℕ) (hi : i ∈ rankedIndices s k t)
    (hfail : lm.get? i = none ∨
      ∃ mid, lm.get? i = some mid ∧ dictLookup d mid = none) :
    imageOutput lm d s k t fn = none := by
  have hle : lookupEntry lm d s i = none := by
    rcases hfail with h | ⟨mid, h1, h2⟩
    · unfold lookupEntry
      rw [h]
    · unfold lookupEntry
      rw [h1]
      show (match dictLookup d mid with
        | none => none
        | some nm => some (i, mid, nm, score s i)) = none
      rw [h2]
  unfold imageOutput
  rw [formatAll_none hi hle]

theorem c8_lookup_failure_fatal_witness :
    (0 : ℕ) ∈ rankedIndices [mkRat 1 2] 1 none ∧
    (([] : List (List Char)).get? 0 = none ∨
      ∃ mid, ([] : List (List Char)).get? 0 = some mid ∧
        dictLookup [] mid = none) ∧
    imageOutput [] [] [mkRat 1 2] 1 none (strL "a.jpg") = none :=
  ⟨by decide, Or.inl (by decide),
    c8_lookup_failure_fatal [] [] [mkRat 1 2] 1 none (strL "a.jpg") 0 (by decide)
      (Or.inl (by decide))⟩

theorem splitFirstComma_none {line : List Char} (h : ',' ∉ line) :
    splitFirstComma line = none := by
  induction line with
  | nil => rfl
  | cons c t ih =>
    unfold splitFirstComma
    rw [if_neg (fun hc => h (by rw [hc]; exact List.mem_cons_self ',' t)),
      ih (fun hm => h (List.mem_cons_of_mem c hm))]

theorem loadLabelDict_bad_line (line : List Char) (h : parseDictLine line = none) :
    ∀ pre post : List (List Char), loadLabelDict (pre ++ line :: post) = none := by
  intro pre
  induction pre with
  | nil =>
    intro post
    rw [List.nil_append]
    unfold loadLabelDict
    rw [h]
  | cons l pre ih =>
    intro post
    rw [List.cons_append]
    unfold loadLabelDict
    cases hl : parseDictLine l with
    | none => rfl
    | some p => rw [ih post]

/-- C9: a dictionary line with no comma is not guarded: parsing it
fails (the `words[1]` access), so `LoadLabelMap` on any dictionary file
containing such a line produces no mapping at all. -/
theorem c9_comma_free_line_fatal (line : List Char) (h : ',' ∉ line) :
    parseDictLine line = none ∧
    ∀ labelLines pre post : List (List Char),
      LoadLabelMap labelLines (pre ++ line :: post) = none := by
  have hp : parseDictLine line = none := by
    unfold parseDictLine
    rw [splitFirstComma_none h]
  refine ⟨hp, ?_⟩
  intro labelLines pre post
  unfold LoadLabelMap
  rw [loadLabelDict_bad_line line hp pre post]

theorem c9_comma_free_line_fatal_witness :
    ',' ∉ strL "nocomma" ∧
    parseDictLine (strL "nocomma") = none ∧
    LoadLabelMap [strL "/m/1"]
      ([strL "/m/1,\"A\""] ++ strL "nocomma" :: [strL "/m/2,\"B\""]) = none :=
  ⟨by decide, (c9_comma_free_line_fatal (strL "nocomma") (by decide)).1,
    (c9_comma_free_line_fatal (strL "nocomma") (by decide)).2 [strL "/m/1"]
      [strL "/m/1,\"A\""] [strL "/m/2,\"B\""]⟩

/-! ### Claim about duplicate dictionary keys -/

theorem loadLabelDict_append_inv : ∀ (xs ys : List (List Char))
    (d : List (List Char × List Char)), loadLabelDict (xs ++ ys) = some d →
    ∃ a b, loadLabelDict xs = some a ∧ loadLabelDict ys = some b ∧ d = a ++ b := by
  intro xs
  induction xs with
  | nil =>
    intro ys d h
    exact ⟨[], d, rfl, h, rfl⟩
  | cons l xs ih =>
    intro ys d h
    rw [List.cons_append] at h
    unfold loadLabelDict at h
    cases hl : parseDictLine l with
    | none => rw [hl] at h; exact absurd h (by simp)
    | some p =>
      rw [hl] at h
      cases hrest : loadLabelDict (xs ++ ys) with
      | none => rw [hrest] at h; exact absurd h (by simp)
      | some drest =>
        rw [hrest] at h
        injection h with h
        obtain ⟨a, b, ha, hb, hab⟩ := ih ys drest hrest
        refine ⟨p :: a, b, ?_, hb, by rw [← h, hab, List.cons_append]⟩
        unfold loadLabelDict
        rw [hl, ha]

theorem loadLabelDict_mem : ∀ (ys : List (List Char))
    (b : List (List Char × List Char)) (q : List Char × List Char),
    loadLabelDict ys = some b → q ∈ b →
    ∃ l, l ∈ ys ∧ parseDictLine l = some q := by
  intro ys
  induction ys with
  | nil =>
    intro b q h hq
    injection h with h
    rw [← h] at hq
    cases hq
  | cons l ys ih =>
    intro b q h hq
    unfold loadLabelDict at h
    cases hl : parseDictLine l with
    | none => rw [hl] at h; exact absurd h (by simp)
    | some p =>
      rw [hl] at h
      cases hrest : loadLabelDict ys with
      | none => rw [hrest] at h; exact absurd h (by simp)
      | some drest =>
        rw [hrest] at h
        injection h with h
        rw [← h] at hq
        rcases List.mem_cons.mp hq with rfl | hmem
        · exact ⟨l, List.mem_cons_self l ys, hl⟩
        · obtain ⟨l2, hl2, hp2⟩ := ih drest q hrest hmem
          exact ⟨l2, List.mem_cons_of_mem l hl2, hp2⟩

theorem find?_append_of_none {α : Type} (p : α → Bool) (l1 l2 : List α)
    (h : ∀ x ∈ l1, p x = false) : (l1 ++ l2).find? p = l2.find? p := by
  induction l1 with
  | nil => rfl
  | cons a t ih =>
    rw [List.cons_append,
      List.find?_cons_of_neg _ (by simpa using h a (List.mem_cons_self a t))]
    exact ih (fun x hx => h x (List.mem_cons_of_mem a hx))

/-- C10: when several dictionary lines share the same (stripped) mid,
the built mapping binds that mid to the display name of the last such
line in file order: later assignments silently overwrite earlier ones. -/
theorem c10_duplicate_mid_last_wins (pre post : List (List Char))
    (l mid v : List Char) (d : List (List Char × List Char))
    (hl : parseDictLine l = some (mid, v))
    (hpost : ∀ l2 ∈ post, ∀ q, parseDictLine l2 = some q → q.1 ≠ mid)
    (h : loadLabelDict (pre ++ l :: post) = some d) :
    dictLookup d mid = some v := by
  obtain ⟨a, b, ha, hb, hab⟩ := loadLabelDict_append_inv pre (l :: post) d h
  unfold loadLabelDict at hb
  rw [hl] at hb
  cases hrest : loadLabelDict post with
  | none => rw [hrest] at hb; exact absurd hb (by simp)
  | some dpost =>
    rw [hrest] at hb
    injection hb with hb
    subst hab
    rw [← hb]
    unfold dictLookup
    rw [List.reverse_append, List.reverse_cons, List.append_assoc]
    rw [find?_append_of_none _ dpost.reverse _ ?hnone]
    · rw [List.singleton_append, List.find?_cons_of_pos _ (by simp)]
      rfl
    case hnone =>
      intro q hq
      obtain ⟨l2, hl2, hp2⟩ :=
        loadLabelDict_mem post dpost q hrest (List.mem_reverse.mp hq)
      simpa using hpost l2 hl2 q hp2

theorem c10_duplicate_mid_last_wins_witness :
    parseDictLine (strL "/m/1,\"New\"") = some (strL "/m/1", strL "New") ∧
    loadLabelDict
        ([strL "/m/1,\"Old\""] ++ strL "/m/1,\"New\"" :: [strL "/m/2,\"B\""]) =
      some [(strL "/m/1", strL "Old"), (strL "/m/1", strL "New"),
        (strL "/m/2", strL "B")] ∧
    dictLookup
      [(strL "/m/1", strL "Old"), (strL "/m/1", strL "New"),
        (strL "/m/2", strL "B")] (strL "/m/1") = some (strL "New") :=
  ⟨by decide, by decide,
    c10_duplicate_mid_last_wins [strL "/m/1,\"Old\""] [strL "/m/2,\"B\""]
      (strL "/m/1,\"New\"") (strL "/m/1") (strL "New")
      [(strL "/m/1", strL "Old"), (strL "/m/1", strL "New"),
        (strL "/m/2", strL "B")]
      (by decide)
      (fun l2 hl2 q hq => by
        simp only [List.mem_singleton] at hl2
        subst hl2
        rw [show parseDictLine (strL "/m/2,\"B\"") =
          some (strL "/m/2", strL "B") from by decide] at hq
        injection hq with hq
        subst hq
        decide)
      (by decide)⟩

end ClassifyOidv2
